import Mathlib

/-!
Verification of the claude-cube permission-mediation service.

This file gives a shallow embedding of the decision pipeline of the
repository (rule engine, escalation handler, Telegram approval
coordinator, stop pipeline, session registry) and proves the frozen
claims about it.

Conventions of the embedding:
* JavaScript objects (`Record<string, unknown>`) are association lists
  `List (String × JsonVal)` in insertion order; `Map` is the same with
  JS `Map.set`/`Map.delete`/`Map.get` semantics (`assocSet` replaces in
  place, `assocDelete` removes, `assocGet?` looks up).
* JSON numbers are modelled as integers (every number the claims touch
  is integral; the JS string form of an integral number is its decimal
  rendering).
* `undefined` is `Option.none`; fallible lookups return `Option`.
* Asynchronous external calls (the LLM evaluator, Telegram sends, the
  reply classifier, tmux) are modelled by passing their results in as
  explicit parameters and recording the calls the code makes as
  explicit effect values.
-/

namespace ClaudeCube

/-- Untyped JSON value, the model of a JavaScript `unknown` tool input. -/
inductive JsonVal where
  | null
  | bool (b : Bool)
  | num (n : Int)
  | str (s : String)
  | arr (elems : List JsonVal)
  | obj (fields : List (String × JsonVal))

mutual

/-- JavaScript `String(v)` for an element of an array (`Array.prototype.join`
renders `null` elements as the empty string). -/
def jsElemString : JsonVal → String
  | .null => ""
  | .bool b => if b then "true" else "false"
  | .num n => toString n
  | .str s => s
  | .obj _ => "[object Object]"
  | .arr xs => jsArrString xs

/-- JavaScript `Array.prototype.toString`: elements joined with commas. -/
def jsArrString : List JsonVal → String
  | [] => ""
  | [v] => jsElemString v
  | v :: rest => jsElemString v ++ "," ++ jsArrString rest

end

/-- JavaScript `String(v)` coercion, as applied by the rule engine to an
extracted field value before pattern testing. -/
def jsString : JsonVal → String
  | .null => "null"
  | .bool b => if b then "true" else "false"
  | .num n => toString n
  | .str s => s
  | .obj _ => "[object Object]"
  | .arr xs => jsArrString xs

example : jsString (.arr [.num 1, .null, .str "x"]) = "1,,x" := by decide

example : jsString (.obj [("a", .num 1)]) = "[object Object]" := by decide

/-! ### JavaScript `Map` / object operations

Insertion-ordered association lists with `Map.set` / `Map.delete` /
`Map.get` semantics.  `Map.set` on an existing key replaces the value in
place (keeping the original position); on a fresh key it appends. -/

/-! ### String helpers

JS string primitives, implemented over character lists so that every
definition evaluates by kernel reduction. -/

/-- JS `s.split(sep)` for a one-character separator (the source only
splits on `"|"` and `"."`). -/
def splitOnCharAux (sep : Char) : List Char → List Char → List String
  | [], acc => [String.mk acc.reverse]
  | c :: cs, acc =>
    if c == sep then String.mk acc.reverse :: splitOnCharAux sep cs []
    else splitOnCharAux sep cs (c :: acc)

def splitOnChar (sep : Char) (s : String) : List String :=
  splitOnCharAux sep s.toList []

/-- JS `s.toLowerCase()` (simple case mapping). -/
def lowerStr (s : String) : String :=
  String.mk (s.toList.map Char.toLower)

/-- JS `s.slice(0, n)`. -/
def strTake (s : String) (n : Nat) : String :=
  String.mk (s.toList.take n)

example : splitOnChar '|' "Read|Glob|Grep" = ["Read", "Glob", "Grep"] := by decide

def charPrefixOf : List Char → List Char → Bool
  | [], _ => true
  | _ :: _, [] => false
  | a :: as, b :: bs => a == b && charPrefixOf as bs

def hasInfix : List Char → List Char → Bool
  | l, sub =>
    charPrefixOf sub l ||
      (match l with
       | [] => false
       | _ :: l' => hasInfix l' sub)

/-- JS `s.includes(sub)`. -/
def containsSubstr (s sub : String) : Bool :=
  hasInfix s.toList sub.toList

/-- JS `s.startsWith(pre)`. -/
def strStartsWith (s pre : String) : Bool :=
  charPrefixOf pre.toList s.toList

/-- JS `map.get(k)` (`undefined` is `none`). -/
def assocGet? {κ α : Type} [BEq κ] (k : κ) (m : List (κ × α)) : Option α :=
  (m.find? (fun p => p.1 == k)).map (·.2)

/-- JS `map.set(k, v)`. -/
def assocSet {κ α : Type} [BEq κ] (k : κ) (v : α) (m : List (κ × α)) : List (κ × α) :=
  if m.any (fun p => p.1 == k) then
    m.map (fun p => if p.1 == k then (k, v) else p)
  else
    m ++ [(k, v)]

/-- JS `map.delete(k)`. -/
def assocDelete {κ α : Type} [BEq κ] (k : κ) (m : List (κ × α)) : List (κ × α) :=
  m.filter (fun p => !(p.1 == k))

/-! ### Field extraction (`RuleEngine.extractFieldValue`)

The source walks a dotted path through the tool input: at the top of
each loop iteration it returns `undefined` when the current value is
`null`/`undefined` or not of JS type `"object"`; otherwise it indexes by
the path component.  JS arrays are objects: they are indexable by their
canonical numeric index strings and expose `length`. -/

/-- Decimal value of a nonempty all-digit character list. -/
def digitsToNat? (cs : List Char) : Option Nat :=
  if !cs.isEmpty && cs.all Char.isDigit then
    some (cs.foldl (fun a c => a * 10 + (c.toNat - 48)) 0)
  else none

/-- Canonical JS array index: the string is the decimal rendering of the
index, with no leading zeros or sign. -/
def jsArrayIndex? (s : String) : Option Nat :=
  match digitsToNat? s.toList with
  | some n => if toString n == s then some n else none
  | none => none

/-- Property access `v[part]` for a value already known to pass the
`current == null || typeof current !== "object"` guard; all other values
yield `undefined` (`none`). -/
def getProp : JsonVal → String → Option JsonVal
  | .obj kvs, k => assocGet? k kvs
  | .arr xs, k =>
      if k == "length" then some (.num xs.length)
      else match jsArrayIndex? k with
        | some i => xs.get? i
        | none => none
  | _, _ => none

/-- `RuleEngine.extractFieldValue(toolInput, field)`. -/
def extractFieldValue (toolInput : List (String × JsonVal)) (field : String) : Option JsonVal :=
  (splitOnChar '.' field).foldl (fun cur part => cur.bind (fun v => getProp v part))
    (some (.obj toolInput))

/-! ### Regex (model of the host JavaScript `RegExp`)

`RuleEngine.patternMatches` calls `new RegExp(pattern).test(value)` —
the host runtime's ECMAScript engine, external to the repository.  The
model below implements an ECMAScript subset (character literals,
escapes, classes, `.`, `^`, `$`, grouping, alternation, `*` `+` `?`
`{m,n}` quantifiers, lazy variants) with the standard unanchored `test`
semantics: a match may start at any position, `.` excludes line
terminators, star iterations must consume input (the `RepeatMatcher`
empty-match rule), and — the point the claims turn on — matching is
case-sensitive, since the source compiles the pattern with no flags.
Word-boundary assertions, lookarounds and backreferences are
unsupported: such patterns are treated as non-matching. -/

inductive RClassItem where
  | single (c : Char)
  | range (lo hi : Char)
deriving DecidableEq

inductive RE where
  | eps
  | char (c : Char)
  | dot
  | cls (neg : Bool) (items : List RClassItem)
  | seq (a b : RE)
  | alt (a b : RE)
  | star (a : RE)
  | plus (a : RE)
  | opt (a : RE)
  | bol
  | eol
deriving DecidableEq

def lineTerm (c : Char) : Bool :=
  c.toNat == 10 || c.toNat == 13 || c.toNat == 0x2028 || c.toNat == 0x2029

def classItemMatches (c : Char) : RClassItem → Bool
  | .single d => c == d
  | .range lo hi => lo.toNat ≤ c.toNat && c.toNat ≤ hi.toNat

def charAt? (s : List Char) (i : Nat) : Option Char :=
  (s.drop i).head?

/-- All positions at which a match of `re` starting at position `i` of
`s` (of length `n`) can end.  `test` succeeds iff some end position
exists.  Fuel only bounds recursion depth; `regexTest` supplies enough
for the bound never to bite (depth decreases lexicographically in
(remaining input, size of the regex)). -/
def reMatch : Nat → List Char → Nat → RE → Nat → List Nat
  | 0, _, _, _, _ => []
  | fuel + 1, s, n, re, i =>
    match re with
    | .eps => [i]
    | .char c =>
        match charAt? s i with
        | some d => if d == c then [i + 1] else []
        | none => []
    | .dot =>
        match charAt? s i with
        | some d => if lineTerm d then [] else [i + 1]
        | none => []
    | .cls neg items =>
        match charAt? s i with
        | some d => if (items.any (classItemMatches d)) != neg then [i + 1] else []
        | none => []
    | .seq a b => (reMatch fuel s n a i).flatMap (reMatch fuel s n b)
    | .alt a b => reMatch fuel s n a i ++ reMatch fuel s n b i
    | .star a =>
        i :: ((reMatch fuel s n a i).filter (fun j => i < j)).flatMap
          (reMatch fuel s n (.star a))
    | .plus a => (reMatch fuel s n a i).flatMap (reMatch fuel s n (.star a))
    | .opt a => i :: reMatch fuel s n a i
    | .bol => if i == 0 then [i] else []
    | .eol => if i == n then [i] else []

def sizeRE : RE → Nat
  | .eps | .char _ | .dot | .cls _ _ | .bol | .eol => 1
  | .seq a b | .alt a b => sizeRE a + sizeRE b + 1
  | .star a | .plus a | .opt a => sizeRE a + 1

def digitItems : List RClassItem := [.range '0' '9']

def wordItems : List RClassItem :=
  [.range 'a' 'z', .range 'A' 'Z', .range '0' '9', .single '_']

def spaceItems : List RClassItem :=
  [.single ' ', .single '\t', .single '\n', .single '\r',
   .single (Char.ofNat 11), .single (Char.ofNat 12), .single (Char.ofNat 0xA0),
   .single (Char.ofNat 0xFEFF), .single (Char.ofNat 0x2028), .single (Char.ofNat 0x2029)]

/-- Escape sequences usable as atoms (outside a class). `none` means the
construct is an assertion or backreference the model does not support. -/
def escAtom (c : Char) : Option RE :=
  if c == 'd' then some (.cls false digitItems)
  else if c == 'D' then some (.cls true digitItems)
  else if c == 'w' then some (.cls false wordItems)
  else if c == 'W' then some (.cls true wordItems)
  else if c == 's' then some (.cls false spaceItems)
  else if c == 'S' then some (.cls true spaceItems)
  else if c == 'n' then some (.char '\n')
  else if c == 'r' then some (.char '\r')
  else if c == 't' then some (.char '\t')
  else if c == 'f' then some (.char (Char.ofNat 12))
  else if c == 'v' then some (.char (Char.ofNat 11))
  else if c == '0' then some (.char (Char.ofNat 0))
  else if c == 'b' || c == 'B' || c.isDigit then none
  else some (.char c)

/-- One class atom: either a single character (may form a range) or a
multi-character escape like `\d`. -/
def parseClassAtom : List Char → Option ((RClassItem ⊕ List RClassItem) × List Char)
  | [] => none
  | '\\' :: e :: rest =>
      if e == 'd' then some (.inr digitItems, rest)
      else if e == 'w' then some (.inr wordItems, rest)
      else if e == 's' then some (.inr spaceItems, rest)
      else if e == 'n' then some (.inl (.single '\n'), rest)
      else if e == 'r' then some (.inl (.single '\r'), rest)
      else if e == 't' then some (.inl (.single '\t'), rest)
      else if e == 'f' then some (.inl (.single (Char.ofNat 12)), rest)
      else if e == 'v' then some (.inl (.single (Char.ofNat 11)), rest)
      else if e == '0' then some (.inl (.single (Char.ofNat 0)), rest)
      else if e == 'D' || e == 'W' || e == 'S' || e == 'b' then none
      else some (.inl (.single e), rest)
  | '\\' :: [] => none
  | c :: rest => some (.inl (.single c), rest)

/-- Items of a character class, after `[` (and an optional `^`). Item
order is irrelevant to matching (`any`), so items accumulate reversed. -/
def parseClassItems : Nat → List Char → List RClassItem →
    Option (List RClassItem × List Char)
  | 0, _, _ => none
  | _ + 1, ']' :: rest, acc => some (acc, rest)
  | fuel + 1, cs, acc =>
    match parseClassAtom cs with
    | none => none
    | some (.inr items, rest) => parseClassItems fuel rest (items ++ acc)
    | some (.inl item, rest) =>
      match item, rest with
      | .single c, '-' :: rest2 =>
        match rest2 with
        | ']' :: _ => parseClassItems fuel rest2 (.single '-' :: .single c :: acc)
        | _ =>
          match parseClassAtom rest2 with
          | some (.inl (.single c2), rest3) =>
              parseClassItems fuel rest3 (.range c c2 :: acc)
          | _ => none
      | _, _ => parseClassItems fuel rest (item :: acc)

/-- Decimal number at the head of the input. -/
def parseDigits : List Char → Option (Nat × List Char)
  | cs =>
    let ds := cs.takeWhile Char.isDigit
    (digitsToNat? ds).map (fun n => (n, cs.drop ds.length))

/-- Brace quantifier body after `{`: `m}`, `m,}` or `m,n}`. -/
def parseBraceQuant (cs : List Char) : Option ((Nat × Option Nat) × List Char) :=
  match parseDigits cs with
  | none => none
  | some (m, rest) =>
    match rest with
    | '}' :: rest2 => some ((m, some m), rest2)
    | ',' :: '}' :: rest2 => some ((m, none), rest2)
    | ',' :: rest2 =>
      match parseDigits rest2 with
      | some (n, '}' :: rest3) => some ((m, some n), rest3)
      | _ => none
    | _ => none

def repeatSeq (a : RE) : Nat → RE
  | 0 => .eps
  | k + 1 => .seq a (repeatSeq a k)

def repeatOpts (a : RE) : Nat → RE
  | 0 => .eps
  | k + 1 => .seq (.opt a) (repeatOpts a k)

/-- Desugared `{m}` / `{m,}` / `{m,n}`. -/
def quantRE (a : RE) (m : Nat) : Option Nat → Option RE
  | none => some (.seq (repeatSeq a m) (.star a))
  | some n => if m ≤ n then some (.seq (repeatSeq a m) (repeatOpts a (n - m))) else none

/-- Skip the lazy marker after a quantifier (laziness does not change
whether a match exists). -/
def dropLazy : List Char → List Char
  | '?' :: rest => rest
  | cs => cs

inductive PMode where
  | alternative
  | sequence
  | atomQ
  | atom

/-- Recursive-descent parser for the supported ECMAScript subset, one
function over a parse mode so that recursion is structural on fuel. -/
def parseRE : Nat → PMode → List Char → Option (RE × List Char)
  | 0, _, _ => none
  | fuel + 1, .alternative, cs => do
    let (a, rest) ← parseRE fuel .sequence cs
    match rest with
    | '|' :: rest2 => do
      let (b, rest3) ← parseRE fuel .alternative rest2
      pure (.alt a b, rest3)
    | _ => pure (a, rest)
  | fuel + 1, .sequence, cs =>
    match cs with
    | [] => some (.eps, cs)
    | '|' :: _ => some (.eps, cs)
    | ')' :: _ => some (.eps, cs)
    | _ => do
      let (a, rest) ← parseRE fuel .atomQ cs
      let (b, rest2) ← parseRE fuel .sequence rest
      pure (.seq a b, rest2)
  | fuel + 1, .atomQ, cs => do
    let (a, rest) ← parseRE fuel .atom cs
    match rest with
    | '*' :: r2 => pure (.star a, dropLazy r2)
    | '+' :: r2 => pure (.plus a, dropLazy r2)
    | '?' :: r2 => pure (.opt a, dropLazy r2)
    | '{' :: r2 =>
      match parseBraceQuant r2 with
      | some ((m, hi), r3) => do
        let q ← quantRE a m hi
        pure (q, dropLazy r3)
      | none => pure (a, rest)
    | _ => pure (a, rest)
  | fuel + 1, .atom, cs =>
    match cs with
    | '(' :: '?' :: ':' :: rest => do
      let (a, rest2) ← parseRE fuel .alternative rest
      match rest2 with
      | ')' :: rest3 => pure (a, rest3)
      | _ => none
    | '(' :: '?' :: _ => none
    | '(' :: rest => do
      let (a, rest2) ← parseRE fuel .alternative rest
      match rest2 with
      | ')' :: rest3 => pure (a, rest3)
      | _ => none
    | '[' :: '^' :: rest => do
      let (items, rest2) ← parseClassItems (rest.length + 1) rest []
      pure (.cls true items, rest2)
    | '[' :: rest => do
      let (items, rest2) ← parseClassItems (rest.length + 1) rest []
      pure (.cls false items, rest2)
    | '\\' :: e :: rest => do
      let a ← escAtom e
      pure (a, rest)
    | '\\' :: [] => none
    | '.' :: rest => some (.dot, rest)
    | '^' :: rest => some (.bol, rest)
    | '$' :: rest => some (.eol, rest)
    | '*' :: _ => none
    | '+' :: _ => none
    | '?' :: _ => none
    | ')' :: _ => none
    | '|' :: _ => none
    | c :: rest => some (.char c, rest)
    | [] => none

/-- Model of `new RegExp(pattern).test(value)` (no flags).  A pattern
outside the supported subset — which `loadRules` would have rejected or
which uses an unsupported construct — is treated as non-matching. -/
def regexTest (pattern value : String) : Bool :=
  let ps := pattern.toList
  match parseRE (4 * ps.length + 8) .alternative ps with
  | some (re, []) =>
    let s := value.toList
    let n := s.length
    (List.range (n + 1)).any (fun i => !(reMatch ((n + 2) * (sizeRE re + 2)) s n re i).isEmpty)
  | _ => false

example : regexTest "a" "bab" = true := by decide

example : regexTest "a" "A" = false := by decide

example : regexTest "^git\\s+push" "git  push origin" = true := by decide

example : regexTest "rm\\s+(-[a-zA-Z]*f[a-zA-Z]*\\s+)?/" "rm -rf /" = true := by decide

example : regexTest "error|failed" "it failed" = true := by decide

/-! ### Glob (model of the external `micromatch.isMatch`)

Modelled from the spec (§4.1): `**` matches across segments, `*` within
a segment (no `/`), `?` a single non-`/` character.  No claim exercises
glob patterns. -/

def globGo : Nat → List Char → List Char → Bool
  | 0, _, _ => false
  | fuel + 1, ps, s =>
    match ps, s with
    | [], s => s.isEmpty
    | '*' :: '*' :: ps', s =>
        globGo fuel ps' s ||
          (match s with
           | [] => false
           | _ :: s' => globGo fuel ('*' :: '*' :: ps') s')
    | '*' :: ps', s =>
        globGo fuel ps' s ||
          (match s with
           | c :: s' => if c == '/' then false else globGo fuel ('*' :: ps') s'
           | [] => false)
    | '?' :: ps', s =>
        match s with
        | c :: s' => c != '/' && globGo fuel ps' s'
        | [] => false
    | c :: ps', s =>
        match s with
        | d :: s' => c == d && globGo fuel ps' s'
        | [] => false

/-- `micromatch.isMatch(value, pattern)`. -/
def globIsMatch (value pattern : String) : Bool :=
  globGo (value.length + pattern.length + 1) pattern.toList value.toList

/-! ### Rule engine (`src/rule-engine/types.ts`, `src/rule-engine/engine.ts`) -/

inductive PatternType where
  | literal
  | regex
  | glob
deriving DecidableEq

structure MatchPattern where
  pattern : String
  type : PatternType
deriving DecidableEq

inductive RuleAction where
  | deny
  | allow
  | escalate
deriving DecidableEq

/-- A rule record.  `match` is the optional map from dotted field path
to pattern list, in insertion order. -/
structure Rule where
  name : String
  action : RuleAction
  tool : String
  «match» : Option (List (String × List MatchPattern))
  reason : Option String
deriving DecidableEq

structure RulesDefaults where
  unmatched : RuleAction
deriving DecidableEq

structure RulesConfig where
  version : String
  defaults : RulesDefaults
  rules : List Rule
deriving DecidableEq

structure EvaluationResult where
  action : RuleAction
  rule : Option Rule
  reason : String
deriving DecidableEq

/-- `RuleEngine.patternMatches(pattern, value)`. -/
def patternMatches (p : MatchPattern) (value : String) : Bool :=
  match p.type with
  | .literal => value == p.pattern
  | .regex => regexTest p.pattern value
  | .glob => globIsMatch value p.pattern

/-- One iteration of the field loop in `RuleEngine.ruleMatches`: a field
whose dot path does not resolve is skipped (`continue`), a resolved
value is coerced with `String(...)` and tested against the field's
pattern list. -/
def fieldEntryMatches (toolInput : List (String × JsonVal))
    (entry : String × List MatchPattern) : Bool :=
  match extractFieldValue toolInput entry.1 with
  | none => false
  | some v => entry.2.any (fun p => patternMatches p (jsString v))

/-- `RuleEngine.ruleMatches(rule, toolName, toolInput)`. -/
def ruleMatches (rule : Rule) (toolName : String)
    (toolInput : List (String × JsonVal)) : Bool :=
  if (splitOnChar '|' rule.tool).any (fun p => p == toolName) then
    match rule.«match» with
    | none => true
    | some entries => entries.any (fieldEntryMatches toolInput)
  else false

/-- The constructor's partition `rules.filter(r => r.action === "deny")`. -/
def denyRules (config : RulesConfig) : List Rule :=
  config.rules.filter (fun r => r.action == .deny)

def allowRules (config : RulesConfig) : List Rule :=
  config.rules.filter (fun r => r.action == .allow)

def escalateRules (config : RulesConfig) : List Rule :=
  config.rules.filter (fun r => r.action == .escalate)

def actionName : RuleAction → String
  | .deny => "deny"
  | .allow => "allow"
  | .escalate => "escalate"

/-- `RuleEngine.evaluate(toolName, toolInput)`: the three for-loops, each
returning on the first matching rule, then the default fallback.  The
first match of an in-order scan is `List.find?`. -/
def evaluate (config : RulesConfig) (toolName : String)
    (toolInput : List (String × JsonVal)) : EvaluationResult :=
  match (denyRules config).find? (fun r => ruleMatches r toolName toolInput) with
  | some rule => ⟨.deny, some rule, rule.reason.getD ("Denied by rule: " ++ rule.name)⟩
  | none =>
  match (allowRules config).find? (fun r => ruleMatches r toolName toolInput) with
  | some rule => ⟨.allow, some rule, rule.reason.getD ("Allowed by rule: " ++ rule.name)⟩
  | none =>
  match (escalateRules config).find? (fun r => ruleMatches r toolName toolInput) with
  | some rule => ⟨.escalate, some rule, rule.reason.getD ("Escalated by rule: " ++ rule.name)⟩
  | none =>
    ⟨config.defaults.unmatched, none,
      "No matching rule; default action: " ++ actionName config.defaults.unmatched⟩

/-! ### Escalation handler (`src/escalation/handler.ts`)

`EscalationHandler.evaluate` awaits two external calls: the LLM
evaluator and (when configured) `approvalManager.requestApproval`.  The
embedding passes their results in as parameters (`telegramResult` is
only consulted on the paths that reach the approval manager).  The
policy-persistence side effect on `policyText` does not change the
returned decision and is not modelled. -/

inductive DecidedBy where
  | llm
  | telegram
  | timeout
deriving DecidableEq

structure LlmEvalResult where
  allowed : Bool
  confident : Bool
  reason : String
deriving DecidableEq

structure ApprovalResult where
  approved : Bool
  reason : String
  policyText : Option String
deriving DecidableEq

structure EscalationDecision where
  allowed : Bool
  reason : String
  decidedBy : DecidedBy
deriving DecidableEq

def escalationEvaluate (hasApprovalManager : Bool) (llmResult : LlmEvalResult)
    (telegramResult : ApprovalResult) : EscalationDecision :=
  if llmResult.confident && llmResult.allowed then
    ⟨true, "LLM: " ++ llmResult.reason, .llm⟩
  else if !hasApprovalManager then
    ⟨false, "LLM uncertain and no Telegram available; denied by default", .timeout⟩
  else
    ⟨telegramResult.approved, telegramResult.reason,
      if containsSubstr telegramResult.reason "timed out" then .timeout else .telegram⟩

/-! ### Stop pipeline (`src/hooks/stop.ts`)

The handler's external interactions — the session tracker's transcript
path, whether `readTranscript`/`summarizeTranscript` throw, the result
of `requestStopDecision` — are parameters (`StopEnv`); the calls the
code makes to `summarizeTranscript` and `requestStopDecision` are
recorded in `StopEffects`.  The per-session retry counter (the entry of
the module-level `retryCount` map for this session) is threaded through
explicitly: `none` models an absent entry. -/

/-- Case-insensitive regex test: `/p/i.test(m)` for a pattern of
lowercase ASCII literals equals the flag-free test on the lowercased
input. -/
def testCI (pattern m : String) : Bool :=
  regexTest pattern (lowerStr m)

/-- The error heuristic of `stop.ts`:
`/error|failed|cannot|unable|exception|traceback/i` matches and
`/successfully|completed|fixed|resolved/i` does not. -/
def looksLikeError (m : String) : Bool :=
  testCI "error|failed|cannot|unable|exception|traceback" m &&
    !(testCI "successfully|completed|fixed|resolved" m)

inductive StopResponse where
  | empty
  | block (reason : String)
deriving DecidableEq

structure StopConfig where
  retryOnError : Bool
  maxRetries : Nat
  escalateToTelegram : Bool
deriving DecidableEq

structure StopInput where
  session_id : String
  cwd : String
  transcript_path : String
  /-- `stop_hook_active?: boolean`; an absent field is falsy. -/
  stop_hook_active : Bool
  last_assistant_message : Option String
deriving DecidableEq

structure StopEnv where
  hasApprovalManager : Bool
  transcriptPath : Option String
  /-- whether `readTranscript` returns (rather than throws) -/
  readOk : Bool
  approvalResult : ApprovalResult
deriving DecidableEq

structure StopEffects where
  summarizeCalled : Bool
  requestStopCalled : Bool
deriving DecidableEq

def noStopEffects : StopEffects := ⟨false, false⟩

def heuristicBlockReason : String :=
  "The previous approach hit an error. Try a different approach to accomplish the task."

/-- `createStopHandler`'s returned handler: response, new retry-counter
entry for this session, and the external calls made. -/
def stopHandler (cfg : StopConfig) (env : StopEnv) (retry : Option Nat)
    (input : StopInput) : StopResponse × Option Nat × StopEffects :=
  if input.stop_hook_active then (.empty, retry, noStopEffects)
  else if (input.last_assistant_message.getD "") == "" then (.empty, retry, noStopEffects)
  else
    let m := input.last_assistant_message.getD ""
    let escalatePhase := fun (retry1 : Option Nat) =>
      if cfg.escalateToTelegram && env.hasApprovalManager then
        let effects : StopEffects := ⟨env.transcriptPath.isSome && env.readOk, true⟩
        let res := env.approvalResult
        let resp : StopResponse :=
          if res.approved then
            match res.policyText with
            | some pt => .block ("The user answered your question: " ++ pt)
            | none => .block "The user wants you to continue with the task."
          else .empty
        (resp, retry1, effects)
      else (.empty, none, noStopEffects)
    if looksLikeError m && cfg.retryOnError then
      let count := retry.getD 0
      if count < cfg.maxRetries then
        (.block heuristicBlockReason, some (count + 1), noStopEffects)
      else
        escalatePhase none
    else
      escalatePhase retry

/-- Responses of `n` consecutive Stop events for one session (the retry
counter threads through; config, environment and event are fixed). -/
def stopTrace (cfg : StopConfig) (env : StopEnv) (input : StopInput) :
    Option Nat → Nat → List StopResponse
  | _, 0 => []
  | r, n + 1 =>
    let out := stopHandler cfg env r input
    out.1 :: stopTrace cfg env input out.2.1 n

/-! ### Session registry (`src/session-tracker.ts`)

The registry is a JS `Map` in insertion order.  tmux lookups
(`resolveLabel`, `findPaneForCwd`) and clocks are parameters. -/

inductive SessionState where
  | active
  | idle
  | permission_pending
deriving DecidableEq

structure SessionInfo where
  sessionId : String
  cwd : String
  startedAt : String
  state : SessionState
  lastToolName : Option String
  lastActivity : Nat
  denialCount : Nat
  label : String
  paneId : Option String
deriving DecidableEq

structure TrackerEnv where
  resolveLabel : String → Option String
  findPaneForCwd : String → Option String
  nowIso : String
  nowMs : Nat

abbrev Sessions := List (String × SessionInfo)

/-- `SessionTracker.register`. -/
def register (env : TrackerEnv) (sessions : Sessions) (sessionId cwd : String) : Sessions :=
  let label := (env.resolveLabel cwd).getD (strTake sessionId 12)
  assocSet sessionId
    ⟨sessionId, cwd, env.nowIso, .active, none, env.nowMs, 0, label, env.findPaneForCwd cwd⟩
    sessions

/-- `SessionTracker.findByCwd`: first session in iteration order with
this `cwd`. -/
def findByCwd (sessions : Sessions) (cwd : String) : Option SessionInfo :=
  (sessions.find? (fun p => p.2.cwd == cwd)).map (·.2)

structure TmuxPane where
  paneId : String
  paneCwd : String
  windowName : String
deriving DecidableEq

/-- The synthetic `SessionInfo` that `registerFromTmux` builds for a
discovered pane. -/
def syntheticInfo (env : TrackerEnv) (pane : TmuxPane) : SessionInfo :=
  ⟨"tmux_" ++ pane.paneId, pane.paneCwd, env.nowIso, .active, none, env.nowMs, 0,
    pane.windowName, some pane.paneId⟩

/-- `SessionTracker.registerFromTmux`, over the pane list returned by
`listClaudePanes()`. -/
def registerFromTmux (env : TrackerEnv) (panes : List TmuxPane)
    (sessions : Sessions) : Sessions :=
  panes.foldl (fun acc pane =>
    if (findByCwd acc pane.paneCwd).isSome then acc
    else assocSet ("tmux_" ++ pane.paneId) (syntheticInfo env pane) acc) sessions

/-- `SessionTracker.ensureRegistered`. -/
def ensureRegistered (env : TrackerEnv) (sessionId cwd : String)
    (sessions : Sessions) : Sessions :=
  if (assocGet? sessionId sessions).isSome then sessions
  else
    match findByCwd sessions cwd with
    | some existing =>
      if strStartsWith existing.sessionId "tmux_" then
        assocSet sessionId { existing with sessionId := sessionId }
          (assocDelete existing.sessionId sessions)
      else register env sessions sessionId cwd
    | none => register env sessions sessionId cwd

/-! ### Approval coordinator (`src/telegram/approval.ts`)

The two maps owned by `ApprovalManager` form the state; the Telegram
callbacks (buttons, text replies) and the timeout timer are inbound
events.  A promise resolution `resolve(result)` is recorded as an
output `(approvalId, result)`; `answerCbQuery` texts and tmux
`sendKeys` calls are also recorded.  The reply classifier's verdict is
an event parameter (`none` models a missing evaluator or a classifier
failure, both of which take the fallback branch). -/

inductive ReplyIntent where
  | approve
  | deny
  | forward
  | add_policy
deriving DecidableEq

structure ReplyEvaluation where
  intent : ReplyIntent
  forwardText : Option String
  policyText : Option String
deriving DecidableEq

structure PendingApproval where
  messageId : Option Nat
  toolName : String
  createdAt : Nat
deriving DecidableEq

structure MessageContext where
  approvalId : String
  sessionId : String
  paneId : Option String
  label : String
  isStop : Bool
deriving DecidableEq

structure AMState where
  pending : List (String × PendingApproval)
  messageContext : List (Nat × MessageContext)
deriving DecidableEq

structure AMOutput where
  resolutions : List (String × ApprovalResult)
  answers : List String
  sendKeysCalls : List (String × String)
deriving DecidableEq

def noOutput : AMOutput := ⟨[], [], []⟩

def expiredAnswer : String := "Request expired or already handled."

/-- `ApprovalManager.cleanup(id)`. -/
def cleanupState (id : String) (st : AMState) : AMState :=
  let mc :=
    match assocGet? id st.pending with
    | some p =>
      match p.messageId with
      | some m => assocDelete m st.messageContext
      | none => st.messageContext
    | none => st.messageContext
  ⟨assocDelete id st.pending, mc⟩

inductive AMEvent where
  | buttonApprove (id : String)
  | buttonDeny (id : String)
  | buttonDetails (id : String)
  | textReply (msgId : Nat) (text : String) (classification : Option ReplyEvaluation)
  /-- the `setTimeout` callback of a request; `reason` is the fixed
  string baked into the creating call (`"Telegram approval timed out"`
  or `"Telegram stop decision timed out"`). -/
  | timeoutFire (id : String) (reason : String)
deriving DecidableEq

/-- One inbound Telegram/timer event against the two maps: the
`setupCallbackHandler` and `setupReplyHandler` handlers and the timeout
closures of `requestApproval`/`requestStopDecision`. -/
def amStep (st : AMState) (e : AMEvent) : AMState × AMOutput :=
  match e with
  | .buttonApprove id =>
    match assocGet? id st.pending with
    | none => (st, ⟨[], [expiredAnswer], []⟩)
    | some _ =>
      (cleanupState id st,
        ⟨[(id, ⟨true, "Approved via Telegram", none⟩)], ["Approved"], []⟩)
  | .buttonDeny id =>
    match assocGet? id st.pending with
    | none => (st, ⟨[], [expiredAnswer], []⟩)
    | some _ =>
      (cleanupState id st,
        ⟨[(id, ⟨false, "Denied via Telegram", none⟩)], ["Denied"], []⟩)
  | .buttonDetails id =>
    match assocGet? id st.pending with
    | none => (st, ⟨[], [expiredAnswer], []⟩)
    | some _ => (st, ⟨[], ["Fetching details..."], []⟩)
  | .timeoutFire id reason =>
    if (assocGet? id st.pending).isSome then
      (cleanupState id st, ⟨[(id, ⟨false, reason, none⟩)], [], []⟩)
    else (st, noOutput)
  | .textReply msgId text classification =>
    match assocGet? msgId st.messageContext with
    | none => (st, noOutput)
    | some mctx =>
      match assocGet? mctx.approvalId st.pending with
      | none => (st, noOutput)
      | some _ =>
        if mctx.isStop then
          (cleanupState mctx.approvalId st,
            ⟨[(mctx.approvalId, ⟨true, "User replied to agent question", some text⟩)], [], []⟩)
        else
          match classification with
          | some ev =>
            match ev.intent with
            | .approve =>
              (cleanupState mctx.approvalId st,
                ⟨[(mctx.approvalId, ⟨true, "Approved via Telegram reply", none⟩)], [], []⟩)
            | .deny =>
              (cleanupState mctx.approvalId st,
                ⟨[(mctx.approvalId, ⟨false, "Denied via Telegram: " ++ text, none⟩)], [], []⟩)
            | .forward =>
              (cleanupState mctx.approvalId st,
                ⟨[(mctx.approvalId, ⟨true, "Approved + forwarded text to agent", none⟩)], [],
                  match mctx.paneId with
                  | some p => [(p, ev.forwardText.getD text)]
                  | none => []⟩)
            | .add_policy =>
              let pt := ev.policyText.getD text
              (cleanupState mctx.approvalId st,
                ⟨[(mctx.approvalId,
                    ⟨true, "Approved via Telegram with policy: " ++ pt, some pt⟩)], [], []⟩)
          | none =>
            (cleanupState mctx.approvalId st,
              ⟨[(mctx.approvalId,
                  ⟨true, "Approved via Telegram with policy: " ++ text, some text⟩)], [], []⟩)

/-- Outputs of a sequence of inbound events. -/
def runOutputs (st : AMState) : List AMEvent → List AMOutput
  | [] => []
  | e :: evs => (amStep st e).2 :: runOutputs (amStep st e).1 evs

/-- Number of promise resolutions for approval `id` in one step's
output. -/
def countResOne (id : String) (out : AMOutput) : Nat :=
  out.resolutions.countP (fun r => r.1 == id)

/-- Number of promise resolutions for approval `id` in a list of
outputs. -/
def countRes (id : String) (outs : List AMOutput) : Nat :=
  (outs.map (countResOne id)).sum

/-! ## Shared lemmas -/

theorem any_beq_iff_mem (l : List String) (a : String) :
    (l.any (fun p => p == a) = true) ↔ a ∈ l := by
  rw [List.any_eq_true]
  constructor
  · rintro ⟨p, hp, hb⟩
    rw [beq_iff_eq] at hb
    exact hb ▸ hp
  · intro h
    exact ⟨a, h, beq_self_eq_true a⟩

theorem fieldEntryMatches_iff (toolInput : List (String × JsonVal))
    (entry : String × List MatchPattern) :
    fieldEntryMatches toolInput entry = true ↔
      ∃ v, extractFieldValue toolInput entry.1 = some v ∧
        ∃ p ∈ entry.2, patternMatches p (jsString v) = true := by
  unfold fieldEntryMatches
  cases h : extractFieldValue toolInput entry.1 <;> simp [h, List.any_eq_true]

theorem assocGet?_eq_none_iff {κ α : Type} [BEq κ] (k : κ) (m : List (κ × α)) :
    assocGet? k m = none ↔ ∀ p ∈ m, (p.1 == k) = false := by
  unfold assocGet?
  rw [Option.map_eq_none', List.find?_eq_none]
  simp only [Bool.not_eq_true]

theorem assocGet?_append_none {κ α : Type} [BEq κ] (k : κ) (l₁ l₂ : List (κ × α))
    (h : assocGet? k (l₁ ++ l₂) = none) :
    assocGet? k l₁ = none ∧ assocGet? k l₂ = none := by
  rw [assocGet?_eq_none_iff] at h
  constructor <;> rw [assocGet?_eq_none_iff] <;> intro p hp
  · exact h p (List.mem_append_left _ hp)
  · exact h p (List.mem_append_right _ hp)

theorem assocSet_of_none {κ α : Type} [BEq κ] (k : κ) (v : α) (m : List (κ × α))
    (h : assocGet? k m = none) : assocSet k v m = m ++ [(k, v)] := by
  rw [assocGet?_eq_none_iff] at h
  unfold assocSet
  rw [if_neg]
  intro hc
  rw [List.any_eq_true] at hc
  obtain ⟨p, hp, hb⟩ := hc
  rw [h p hp] at hb
  exact Bool.noConfusion hb

theorem assocDelete_of_none {κ α : Type} [BEq κ] (k : κ) (m : List (κ × α))
    (h : assocGet? k m = none) : assocDelete k m = m := by
  rw [assocGet?_eq_none_iff] at h
  unfold assocDelete
  apply List.filter_eq_self.mpr
  intro p hp
  rw [h p hp]
  rfl

theorem charPrefixOf_append_self (l m : List Char) : charPrefixOf l (l ++ m) = true := by
  induction l with
  | nil => rfl
  | cons a as ih => simp [charPrefixOf, ih]

theorem strStartsWith_append (pre rest : String) : strStartsWith (pre ++ rest) pre = true := by
  unfold strStartsWith
  have h : (pre ++ rest).toList = pre.toList ++ rest.toList := by
    simp [String.toList]
  rw [h]
  exact charPrefixOf_append_self _ _

theorem findByCwd_eq_none_iff (s : Sessions) (cwd : String) :
    findByCwd s cwd = none ↔ ∀ p ∈ s, (p.2.cwd == cwd) = false := by
  unfold findByCwd
  rw [Option.map_eq_none', List.find?_eq_none]
  simp only [Bool.not_eq_true]

/-- Startup discovery of one pane with a fresh cwd appends the synthetic
entry. -/
theorem registerFromTmux_single (env : TrackerEnv) (s0 : Sessions) (pane : TmuxPane)
    (h0 : findByCwd s0 pane.paneCwd = none)
    (hsyn : assocGet? ("tmux_" ++ pane.paneId) s0 = none) :
    registerFromTmux env [pane] s0 =
      s0 ++ [("tmux_" ++ pane.paneId, syntheticInfo env pane)] := by
  show (if (findByCwd s0 pane.paneCwd).isSome then s0
    else assocSet ("tmux_" ++ pane.paneId) (syntheticInfo env pane) s0) = _
  rw [h0]
  rw [if_neg (by simp)]
  exact assocSet_of_none _ _ _ hsyn

/-- `ensureRegistered` after a startup discovery reinserts the synthetic
entry under the real id. -/
theorem ensureRegistered_merge (env : TrackerEnv) (s0 : Sessions) (pane : TmuxPane)
    (realId : String)
    (h0 : findByCwd s0 pane.paneCwd = none)
    (hsyn : assocGet? ("tmux_" ++ pane.paneId) s0 = none)
    (hreal : assocGet? realId (registerFromTmux env [pane] s0) = none) :
    ensureRegistered env realId pane.paneCwd (registerFromTmux env [pane] s0) =
      s0 ++ [(realId, { syntheticInfo env pane with sessionId := realId })] := by
  have hfind0 : (s0.find? (fun p => p.2.cwd == pane.paneCwd)) = none := by
    rw [List.find?_eq_none]
    simp only [Bool.not_eq_true]
    exact (findByCwd_eq_none_iff _ _).mp h0
  have hs1 := registerFromTmux_single env s0 pane h0 hsyn
  rw [hs1] at hreal ⊢
  obtain ⟨hrs0, _⟩ := assocGet?_append_none _ _ _ hreal
  have hfind1 : findByCwd (s0 ++ [("tmux_" ++ pane.paneId, syntheticInfo env pane)])
      pane.paneCwd = some (syntheticInfo env pane) := by
    unfold findByCwd
    rw [List.find?_append, hfind0]
    simp [syntheticInfo]
  unfold ensureRegistered
  rw [hreal]
  rw [if_neg (by simp)]
  simp only [hfind1]
  have hsw : strStartsWith (syntheticInfo env pane).sessionId "tmux_" = true := by
    show strStartsWith ("tmux_" ++ pane.paneId) "tmux_" = true
    exact strStartsWith_append _ _
  rw [if_pos hsw]
  have hdel : assocDelete (syntheticInfo env pane).sessionId
      (s0 ++ [("tmux_" ++ pane.paneId, syntheticInfo env pane)]) = s0 := by
    show assocDelete ("tmux_" ++ pane.paneId) _ = s0
    unfold assocDelete
    rw [List.filter_append]
    rw [show (s0.filter fun p => !(p.1 == "tmux_" ++ pane.paneId)) = s0 from
      assocDelete_of_none _ _ hsyn]
    simp
  rw [hdel]
  exact assocSet_of_none _ _ _ hrs0

theorem answered_ne_heuristic (pt : String) :
    ("The user answered your question: " ++ pt) ≠ heuristicBlockReason := by
  intro heq
  have hdata := congrArg String.toList heq
  have happ : ("The user answered your question: " ++ pt).toList =
      "The user answered your question: ".toList ++ pt.toList := by
    simp [String.toList]
  rw [happ] at hdata
  have h33 := congrArg (List.take ("The user answered your question: ".toList.length)) hdata
  rw [List.take_left] at h33
  exact absurd h33 (by decide)

/-- On the error-heuristic path with the counter under the bound, the
stop handler blocks and increments. -/
theorem stopHandler_error_block (cfg : StopConfig) (env : StopEnv) (input : StopInput)
    (h1 : input.stop_hook_active = false)
    (h2 : ((input.last_assistant_message.getD "") == "") = false)
    (h3 : looksLikeError (input.last_assistant_message.getD "") = true)
    (h4 : cfg.retryOnError = true)
    (retry : Option Nat) (hc : retry.getD 0 < cfg.maxRetries) :
    stopHandler cfg env retry input =
      (.block heuristicBlockReason, some (retry.getD 0 + 1), noStopEffects) := by
  simp [stopHandler, h1, h2, h3, h4, hc]

/-- On the error-heuristic path with the counter at the bound, the
handler clears the counter and falls through to escalation. -/
theorem stopHandler_error_exhausted (cfg : StopConfig) (env : StopEnv) (input : StopInput)
    (h1 : input.stop_hook_active = false)
    (h2 : ((input.last_assistant_message.getD "") == "") = false)
    (h3 : looksLikeError (input.last_assistant_message.getD "") = true)
    (h4 : cfg.retryOnError = true)
    (retry : Option Nat) (hc : ¬ retry.getD 0 < cfg.maxRetries) :
    stopHandler cfg env retry input =
      (if cfg.escalateToTelegram && env.hasApprovalManager then
        ((if env.approvalResult.approved then
            match env.approvalResult.policyText with
            | some pt => StopResponse.block ("The user answered your question: " ++ pt)
            | none => StopResponse.block "The user wants you to continue with the task."
          else StopResponse.empty), none,
          (⟨env.transcriptPath.isSome && env.readOk, true⟩ : StopEffects))
      else (.empty, none, noStopEffects)) := by
  simp [stopHandler, h1, h2, h3, h4, hc]

theorem stopHandler_exhausted_parts (cfg : StopConfig) (env : StopEnv) (input : StopInput)
    (h1 : input.stop_hook_active = false)
    (h2 : ((input.last_assistant_message.getD "") == "") = false)
    (h3 : looksLikeError (input.last_assistant_message.getD "") = true)
    (h4 : cfg.retryOnError = true)
    (retry : Option Nat) (hc : ¬ retry.getD 0 < cfg.maxRetries) :
    (stopHandler cfg env retry input).2.1 = none
    ∧ (stopHandler cfg env retry input).1 ≠ .block heuristicBlockReason
    ∧ (cfg.escalateToTelegram = true → env.hasApprovalManager = true →
        (stopHandler cfg env retry input).2.2.requestStopCalled = true) := by
  rw [stopHandler_error_exhausted cfg env input h1 h2 h3 h4 retry hc]
  by_cases he : cfg.escalateToTelegram && env.hasApprovalManager
  · rw [if_pos he]
    refine ⟨rfl, ?_, fun _ _ => rfl⟩
    by_cases ha : env.approvalResult.approved
    · rw [if_pos ha]
      cases hp : env.approvalResult.policyText with
      | some pt =>
        intro heq
        injection heq with hr
        exact answered_ne_heuristic pt hr
      | none =>
        intro heq
        injection heq with hr
        exact absurd hr (by decide)
    · rw [if_neg ha]
      exact fun heq => StopResponse.noConfusion heq
  · rw [if_neg he]
    refine ⟨rfl, fun heq => StopResponse.noConfusion heq, ?_⟩
    intro het ham
    rw [het, ham] at he
    exact absurd rfl he

/-- If every response in a run of error-path stop events is the
heuristic block, the run is bounded by the retries left. -/
theorem stopTrace_bound (cfg : StopConfig) (env : StopEnv) (input : StopInput)
    (h1 : input.stop_hook_active = false)
    (h2 : ((input.last_assistant_message.getD "") == "") = false)
    (h3 : looksLikeError (input.last_assistant_message.getD "") = true)
    (h4 : cfg.retryOnError = true) :
    ∀ n c, (∀ r ∈ stopTrace cfg env input (some c) n, r = .block heuristicBlockReason) →
      n ≤ cfg.maxRetries - c := by
  intro n
  induction n with
  | zero => exact fun c _ => Nat.zero_le _
  | succ n ih =>
    intro c hall
    by_cases hc : c < cfg.maxRetries
    · have hstep := stopHandler_error_block cfg env input h1 h2 h3 h4 (some c) hc
      have htr : stopTrace cfg env input (some c) (n + 1) =
          (.block heuristicBlockReason) :: stopTrace cfg env input (some (c + 1)) n := by
        show (stopHandler cfg env (some c) input).1 ::
          stopTrace cfg env input (stopHandler cfg env (some c) input).2.1 n = _
        rw [hstep]
        rfl
      rw [htr] at hall
      have hrest := ih (c + 1) (fun r hr => hall r (List.mem_cons_of_mem _ hr))
      omega
    · have hparts := stopHandler_exhausted_parts cfg env input h1 h2 h3 h4 (some c) hc
      have hhead : (stopHandler cfg env (some c) input).1 = .block heuristicBlockReason := by
        refine hall _ ?_
        show _ ∈ (stopHandler cfg env (some c) input).1 ::
          stopTrace cfg env input (stopHandler cfg env (some c) input).2.1 n
        exact List.mem_cons_self _ _
      exact absurd hhead hparts.2.1

theorem assocGet?_delete_self {κ α : Type} [BEq κ] [LawfulBEq κ] (k : κ) (m : List (κ × α)) :
    assocGet? k (assocDelete k m) = none := by
  rw [assocGet?_eq_none_iff]
  intro p hp
  have := List.of_mem_filter hp
  simpa using this

theorem assocGet?_delete_ne {κ α : Type} [BEq κ] [LawfulBEq κ] (j k : κ) (m : List (κ × α))
    (h : j ≠ k) : assocGet? j (assocDelete k m) = assocGet? j m := by
  unfold assocGet? assocDelete
  congr 1
  induction m with
  | nil => rfl
  | cons p m ih =>
    cases hpk : p.1 == k with
    | true =>
      have hpj : (p.1 == j) = false := by
        rw [beq_iff_eq] at hpk
        rw [beq_eq_false_iff_ne, hpk]
        exact fun he => h he.symm
      simp only [List.filter_cons, hpk, Bool.not_true, Bool.false_eq_true, if_false,
        List.find?_cons, hpj]
      exact ih
    | false =>
      cases hpj : p.1 == j with
      | true =>
        simp only [List.filter_cons, hpk, Bool.not_false, if_true, List.find?_cons, hpj]
      | false =>
        simp only [List.filter_cons, hpk, Bool.not_false, if_true, List.find?_cons, hpj]
        exact ih

theorem cleanupState_pending (id : String) (st : AMState) :
    (cleanupState id st).pending = assocDelete id st.pending := rfl

theorem cleanup_deletes (id : String) (st : AMState) (p : PendingApproval)
    (hp : assocGet? id st.pending = some p) :
    assocGet? id (cleanupState id st).pending = none ∧
    (∀ m, p.messageId = some m → assocGet? m (cleanupState id st).messageContext = none) := by
  constructor
  · rw [cleanupState_pending]
    exact assocGet?_delete_self id st.pending
  · intro m hm
    have hmc : (cleanupState id st).messageContext = assocDelete m st.messageContext := by
      simp [cleanupState, hp, hm]
    rw [hmc]
    exact assocGet?_delete_self m st.messageContext

theorem resolve_case (st : AMState) (rid : String) (res : ApprovalResult)
    (ans : List String) (ks : List (String × String)) (id : String)
    (hsome : (assocGet? rid st.pending).isSome = true) :
    (countResOne id (⟨[(rid, res)], ans, ks⟩ : AMOutput) = 0 ∧
      assocGet? id (cleanupState rid st).pending = assocGet? id st.pending)
    ∨ (countResOne id (⟨[(rid, res)], ans, ks⟩ : AMOutput) = 1 ∧
        (assocGet? id st.pending).isSome = true ∧
        cleanupState rid st = cleanupState id st) := by
  by_cases hid : rid = id
  · subst hid
    right
    exact ⟨by simp [countResOne], hsome, rfl⟩
  · left
    refine ⟨by simp [countResOne, hid], ?_⟩
    rw [cleanupState_pending]
    exact assocGet?_delete_ne id rid st.pending (fun he => hid he.symm)

theorem amStep_cases (st : AMState) (e : AMEvent) (id : String) :
    (countResOne id (amStep st e).2 = 0 ∧
      assocGet? id (amStep st e).1.pending = assocGet? id st.pending)
    ∨ (countResOne id (amStep st e).2 = 1 ∧
        (assocGet? id st.pending).isSome = true ∧
        (amStep st e).1 = cleanupState id st) := by
  cases e with
  | buttonApprove bid =>
    cases h : assocGet? bid st.pending with
    | none => left; simp [amStep, h, countResOne]
    | some p =>
      have hr := resolve_case st bid ⟨true, "Approved via Telegram", none⟩ ["Approved"] [] id
        (by simp [h])
      simpa [amStep, h] using hr
  | buttonDeny bid =>
    cases h : assocGet? bid st.pending with
    | none => left; simp [amStep, h, countResOne]
    | some p =>
      have hr := resolve_case st bid ⟨false, "Denied via Telegram", none⟩ ["Denied"] [] id
        (by simp [h])
      simpa [amStep, h] using hr
  | buttonDetails bid =>
    cases h : assocGet? bid st.pending with
    | none => left; simp [amStep, h, countResOne]
    | some p => left; simp [amStep, h, countResOne]
  | timeoutFire tid r =>
    by_cases h : (assocGet? tid st.pending).isSome = true
    · have hr := resolve_case st tid ⟨false, r, none⟩ [] [] id h
      simpa [amStep, h] using hr
    · left
      simp [amStep, h, countResOne, noOutput]
  | textReply msgId text cls =>
    cases hm : assocGet? msgId st.messageContext with
    | none => left; simp [amStep, hm, countResOne, noOutput]
    | some mctx =>
      cases hp : assocGet? mctx.approvalId st.pending with
      | none => left; simp [amStep, hm, hp, countResOne, noOutput]
      | some p =>
        have hsome : (assocGet? mctx.approvalId st.pending).isSome = true := by simp [hp]
        by_cases hstop : mctx.isStop
        · have hr := resolve_case st mctx.approvalId
            ⟨true, "User replied to agent question", some text⟩ [] [] id hsome
          simpa [amStep, hm, hp, hstop] using hr
        · cases cls with
          | none =>
            have hr := resolve_case st mctx.approvalId
              ⟨true, "Approved via Telegram with policy: " ++ text, some text⟩ [] [] id hsome
            simpa [amStep, hm, hp, hstop] using hr
          | some ev =>
            cases hint : ev.intent with
            | approve =>
              have hr := resolve_case st mctx.approvalId
                ⟨true, "Approved via Telegram reply", none⟩ [] [] id hsome
              simpa [amStep, hm, hp, hstop, hint] using hr
            | deny =>
              have hr := resolve_case st mctx.approvalId
                ⟨false, "Denied via Telegram: " ++ text, none⟩ [] [] id hsome
              simpa [amStep, hm, hp, hstop, hint] using hr
            | forward =>
              have hr := resolve_case st mctx.approvalId
                ⟨true, "Approved + forwarded text to agent", none⟩ []
                (match mctx.paneId with
                 | some pn => [(pn, ev.forwardText.getD text)]
                 | none => []) id hsome
              simpa [amStep, hm, hp, hstop, hint] using hr
            | add_policy =>
              have hr := resolve_case st mctx.approvalId
                ⟨true, "Approved via Telegram with policy: " ++ (ev.policyText.getD text),
                  some (ev.policyText.getD text)⟩ [] [] id hsome
              simpa [amStep, hm, hp, hstop, hint] using hr

theorem amStep_timeout_resolves (st : AMState) (id r : String)
    (h : (assocGet? id st.pending).isSome = true) :
    countResOne id (amStep st (.timeoutFire id r)).2 = 1 := by
  simp [amStep, h, countResOne]

theorem amStep_expired (st : AMState) (id : String)
    (h : assocGet? id st.pending = none) :
    amStep st (.buttonApprove id) = (st, ⟨[], [expiredAnswer], []⟩) ∧
    amStep st (.buttonDeny id) = (st, ⟨[], [expiredAnswer], []⟩) := by
  constructor <;> simp [amStep, h]

theorem runOutputs_cons (st : AMState) (e : AMEvent) (evs : List AMEvent) :
    runOutputs st (e :: evs) = (amStep st e).2 :: runOutputs (amStep st e).1 evs := rfl

theorem countRes_cons (id : String) (o : AMOutput) (outs : List AMOutput) :
    countRes id (o :: outs) = countResOne id o + countRes id outs := by
  simp [countRes]

theorem countRes_zero_of_none (id : String) : ∀ (evs : List AMEvent) (st : AMState),
    assocGet? id st.pending = none →
    countRes id (runOutputs st evs) = 0 := by
  intro evs
  induction evs with
  | nil => intro st _; rfl
  | cons e evs ih =>
    intro st hnone
    rcases amStep_cases st e id with ⟨h0, hpres⟩ | ⟨_, hsome, _⟩
    · rw [runOutputs_cons, countRes_cons, h0, ih _ (by rw [hpres, hnone])]
    · rw [hnone] at hsome
      exact absurd hsome (by simp)

theorem countRes_le_one (id : String) : ∀ (evs : List AMEvent) (st : AMState),
    countRes id (runOutputs st evs) ≤ 1 := by
  intro evs
  induction evs with
  | nil => intro st; simp [runOutputs, countRes]
  | cons e evs ih =>
    intro st
    rcases amStep_cases st e id with ⟨h0, _⟩ | ⟨h1, _, hclean⟩
    · rw [runOutputs_cons, countRes_cons, h0]
      simpa using ih (amStep st e).1
    · rw [runOutputs_cons, countRes_cons, h1, hclean,
        countRes_zero_of_none id evs (cleanupState id st)
          (by rw [cleanupState_pending]; exact assocGet?_delete_self _ _)]

theorem countRes_timeout_one (id : String) : ∀ (evs : List AMEvent) (st : AMState),
    (assocGet? id st.pending).isSome = true →
    (∃ r, AMEvent.timeoutFire id r ∈ evs) →
    countRes id (runOutputs st evs) = 1 := by
  intro evs
  induction evs with
  | nil =>
    rintro st _ ⟨r, hr⟩
    exact absurd hr (List.not_mem_nil _)
  | cons e evs ih =>
    rintro st hsome ⟨r, hr⟩
    rcases amStep_cases st e id with ⟨h0, hpres⟩ | ⟨h1, _, hclean⟩
    · rw [runOutputs_cons, countRes_cons, h0]
      rcases List.mem_cons.mp hr with he | hr'
      · rw [← he] at h0
        rw [amStep_timeout_resolves st id r hsome] at h0
        exact absurd h0 (by simp)
      · rw [ih (amStep st e).1 (by rw [hpres]; exact hsome) ⟨r, hr'⟩]
    · rw [runOutputs_cons, countRes_cons, h1, hclean,
        countRes_zero_of_none id evs (cleanupState id st)
          (by rw [cleanupState_pending]; exact assocGet?_delete_self _ _)]

/-! ## Claims -/

/-- Claim C1: `RuleEngine.evaluate` scans the partitioned categories in
the order deny, allow, escalate, returning for the first category with a
matching rule the first matching rule of that category in original order
(with reason `rule.reason ?? "Denied by rule: " + name`, etc.); in
particular an input matching both a deny rule and an allow rule is
denied, by the first matching deny rule. -/
theorem claim_C1 (config : RulesConfig) (toolName : String)
    (toolInput : List (String × JsonVal)) :
    (∀ D, (denyRules config).find? (fun r => ruleMatches r toolName toolInput) = some D →
      evaluate config toolName toolInput =
        ⟨.deny, some D, D.reason.getD ("Denied by rule: " ++ D.name)⟩)
    ∧ ((denyRules config).find? (fun r => ruleMatches r toolName toolInput) = none →
      ∀ A, (allowRules config).find? (fun r => ruleMatches r toolName toolInput) = some A →
        evaluate config toolName toolInput =
          ⟨.allow, some A, A.reason.getD ("Allowed by rule: " ++ A.name)⟩)
    ∧ ((denyRules config).find? (fun r => ruleMatches r toolName toolInput) = none →
      (allowRules config).find? (fun r => ruleMatches r toolName toolInput) = none →
      ∀ E, (escalateRules config).find? (fun r => ruleMatches r toolName toolInput) = some E →
        evaluate config toolName toolInput =
          ⟨.escalate, some E, E.reason.getD ("Escalated by rule: " ++ E.name)⟩)
    ∧ ((denyRules config).find? (fun r => ruleMatches r toolName toolInput) = none →
      (allowRules config).find? (fun r => ruleMatches r toolName toolInput) = none →
      (escalateRules config).find? (fun r => ruleMatches r toolName toolInput) = none →
        evaluate config toolName toolInput =
          ⟨config.defaults.unmatched, none,
            "No matching rule; default action: " ++ actionName config.defaults.unmatched⟩)
    ∧ (∀ D A, D ∈ config.rules → D.action = .deny →
        ruleMatches D toolName toolInput = true →
        A ∈ config.rules → A.action = .allow →
        ruleMatches A toolName toolInput = true →
        ∃ D0, (denyRules config).find? (fun r => ruleMatches r toolName toolInput) = some D0 ∧
          evaluate config toolName toolInput =
            ⟨.deny, some D0, D0.reason.getD ("Denied by rule: " ++ D0.name)⟩) := by
  refine ⟨?_, ?_, ?_, ?_, ?_⟩
  · intro D hD
    unfold evaluate
    rw [hD]
  · intro h0 A hA
    unfold evaluate
    rw [h0, hA]
  · intro h0 h1 E hE
    unfold evaluate
    rw [h0, h1, hE]
  · intro h0 h1 h2
    unfold evaluate
    rw [h0, h1, h2]
  · intro D A hD haD hmD _hA _haA _hmA
    have hmem : D ∈ denyRules config := by
      refine List.mem_filter.mpr ⟨hD, ?_⟩
      simp [haD]
    have hsome : ((denyRules config).find? (fun r => ruleMatches r toolName toolInput)).isSome := by
      rw [List.find?_isSome]
      exact ⟨D, hmem, hmD⟩
    obtain ⟨D0, hD0⟩ := Option.isSome_iff_exists.mp hsome
    refine ⟨D0, hD0, ?_⟩
    unfold evaluate
    rw [hD0]

/-- Witness for C1 at a concrete config: a deny rule and an allow rule
both match a `Bash` call; the engine denies with the deny rule's
reason. -/
theorem claim_C1_witness :
    evaluate
      ⟨"1", ⟨.escalate⟩,
        [⟨"Allow everything", .allow, "Bash", none, none⟩,
         ⟨"Block rm", .deny, "Bash", none, some "Destructive filesystem command blocked"⟩]⟩
      "Bash" [("command", .str "rm -rf /")] =
      ⟨.deny, some ⟨"Block rm", .deny, "Bash", none, some "Destructive filesystem command blocked"⟩,
        "Destructive filesystem command blocked"⟩ := by
  have h := (claim_C1
    ⟨"1", ⟨.escalate⟩,
      [⟨"Allow everything", .allow, "Bash", none, none⟩,
       ⟨"Block rm", .deny, "Bash", none, some "Destructive filesystem command blocked"⟩]⟩
    "Bash" [("command", .str "rm -rf /")]).1
    ⟨"Block rm", .deny, "Bash", none, some "Destructive filesystem command blocked"⟩
    (by decide)
  exact h

/-- Claim C2: a rule matches iff the tool name is an exact member of the
pipe-split selector and either the rule has no match block or some
(field, patternList) entry has its dot-path-extracted value match some
pattern; an entry whose path does not resolve is skipped, not failed. -/
theorem claim_C2 (rule : Rule) (toolName : String)
    (toolInput : List (String × JsonVal)) :
    (ruleMatches rule toolName toolInput = true ↔
      (toolName ∈ splitOnChar '|' rule.tool ∧
        (rule.«match» = none ∨
          ∃ entries, rule.«match» = some entries ∧
            ∃ entry ∈ entries, ∃ v,
              extractFieldValue toolInput entry.1 = some v ∧
                ∃ p ∈ entry.2, patternMatches p (jsString v) = true)))
    ∧ (∀ f ps rest, extractFieldValue toolInput f = none →
        ruleMatches { rule with «match» := some ((f, ps) :: rest) } toolName toolInput =
          ruleMatches { rule with «match» := some rest } toolName toolInput) := by
  constructor
  · by_cases ht : (splitOnChar '|' rule.tool).any (fun p => p == toolName)
    · have htm : toolName ∈ splitOnChar '|' rule.tool := (any_beq_iff_mem _ _).mp ht
      cases hm : rule.«match» with
      | none => simp [ruleMatches, hm, ht, htm]
      | some entries =>
        simp only [ruleMatches, hm, ht, if_true, htm, true_and]
        rw [List.any_eq_true]
        constructor
        · rintro ⟨entry, hmem, hfe⟩
          exact Or.inr ⟨entries, rfl, entry, hmem, (fieldEntryMatches_iff _ _).mp hfe⟩
        · rintro (h | ⟨entries', hE, entry, hmem, hv⟩)
          · exact absurd h (by simp)
          · obtain rfl : entries' = entries := by
              injection hE with h
              exact h.symm
            exact ⟨entry, hmem, (fieldEntryMatches_iff _ _).mpr hv⟩
    · have htm : toolName ∉ splitOnChar '|' rule.tool := fun h => ht ((any_beq_iff_mem _ _).mpr h)
      simp [ruleMatches, ht, htm]
  · intro f ps rest h
    simp [ruleMatches, fieldEntryMatches, h]

/-- Witness for C2: a `Write|Edit` rule matches `Edit` through its
`file_path` entry while the unresolvable `nested.path` entry is
skipped. -/
theorem claim_C2_witness :
    ruleMatches ⟨"Sensitive", .deny, "Write|Edit",
        some [("nested.path", [⟨"x", .literal⟩]), ("file_path", [⟨".env", .literal⟩])], none⟩
      "Edit" [("file_path", .str ".env")] = true ∧
    ruleMatches ⟨"Sens2", .deny, "Write|Edit",
        some [("nested.path", [⟨"x", .literal⟩])], none⟩
      "Edit" [("file_path", .str ".env")] =
    ruleMatches ⟨"Sens2", .deny, "Write|Edit", some [], none⟩
      "Edit" [("file_path", .str ".env")] := by
  constructor
  · exact (claim_C2 ⟨"Sensitive", .deny, "Write|Edit",
        some [("nested.path", [⟨"x", .literal⟩]), ("file_path", [⟨".env", .literal⟩])], none⟩
      "Edit" [("file_path", .str ".env")]).1.mpr
      ⟨by decide, Or.inr ⟨_, rfl, ("file_path", [⟨".env", .literal⟩]), by decide,
        .str ".env", rfl, ⟨".env", .literal⟩, by decide, by decide⟩⟩
  · exact (claim_C2 ⟨"Sens2", .deny, "Write|Edit",
        some [("nested.path", [⟨"x", .literal⟩])], none⟩
      "Edit" [("file_path", .str ".env")]).2 "nested.path" [⟨"x", .literal⟩] [] rfl

/-- Claim C10 (implicit): extracted field values are coerced with
`String()` before pattern testing — a present non-string leaf matches by
its string rendering (numeric `42` matches the literal pattern `"42"`,
plain objects render as `"[object Object]"`, arrays join with commas) —
and only an extraction yielding `undefined` skips the field's pattern
list. -/
theorem claim_C10 :
    (∀ (toolInput : List (String × JsonVal)) (entry : String × List MatchPattern) v,
      extractFieldValue toolInput entry.1 = some v →
        fieldEntryMatches toolInput entry =
          entry.2.any (fun p => patternMatches p (jsString v)))
    ∧ (∀ (toolInput : List (String × JsonVal)) (entry : String × List MatchPattern),
      extractFieldValue toolInput entry.1 = none →
        fieldEntryMatches toolInput entry = false)
    ∧ patternMatches ⟨"42", .literal⟩ (jsString (.num 42)) = true
    ∧ (∀ kvs, jsString (.obj kvs) = "[object Object]")
    ∧ jsString (.arr [.num 1, .num 2]) = "1,2"
    ∧ (∀ b, jsString (.bool b) = if b then "true" else "false") := by
  refine ⟨?_, ?_, by decide, fun kvs => rfl, by decide, fun b => rfl⟩
  · intro toolInput entry v h
    simp [fieldEntryMatches, h]
  · intro toolInput entry h
    simp [fieldEntryMatches, h]

/-- Witness for C10: the numeric leaf `42` under field `n` satisfies the
literal pattern `"42"`. -/
theorem claim_C10_witness :
    fieldEntryMatches [("n", .num 42)] ("n", [⟨"42", .literal⟩]) = true ∧
    fieldEntryMatches [("n", .num 42)] ("missing", [⟨"42", .literal⟩]) = false := by
  constructor
  · rw [claim_C10.1 [("n", .num 42)] ("n", [⟨"42", .literal⟩]) (.num 42) rfl]
    decide
  · exact claim_C10.2.1 [("n", .num 42)] ("missing", [⟨"42", .literal⟩]) rfl

/-- Counterexample to claim C6: the source compiles the pattern with
`new RegExp(pattern)` — no `i` flag — so regex matching is not
case-insensitive: pattern `"a"` matches `"a"` but not `"A"`. -/
theorem claim_C6_counterexample :
    ¬ (∀ (p v w : String), lowerStr v = lowerStr w →
        patternMatches ⟨p, .regex⟩ v = patternMatches ⟨p, .regex⟩ w) := by
  intro h
  have h2 := h "a" "a" "A" (by decide)
  have h3 : patternMatches ⟨"a", .regex⟩ "a" = true := by decide
  have h4 : patternMatches ⟨"a", .regex⟩ "A" = false := by decide
  rw [h3, h4] at h2
  exact Bool.noConfusion h2

/-- Claim C6 as amended: the regex pattern matcher is ECMAScript
`test()` with no flags, hence case-sensitive by default — two values
differing only in letter case may produce different results. -/
theorem claim_C6 :
    (∀ p v, patternMatches ⟨p, .regex⟩ v = regexTest p v)
    ∧ patternMatches ⟨"a", .regex⟩ "a" = true
    ∧ patternMatches ⟨"a", .regex⟩ "A" = false
    ∧ lowerStr "a" = lowerStr "A" :=
  ⟨fun _ _ => rfl, by decide, by decide, by decide⟩

/-- Claim C3: a confident-deny LLM verdict never yields `decidedBy:
"llm"` — with a coordinator the decision is the coordinator's (final
`decidedBy` `telegram` or `timeout`), without one the handler returns a
default-deny with `decidedBy: "timeout"` and a reason mentioning that no
Telegram is available; only `confident ∧ allowed` produces `decidedBy:
"llm"`, and then the call is allowed. -/
theorem claim_C3 (hasManager : Bool) (llm : LlmEvalResult) (tg : ApprovalResult) :
    (llm.confident = true → llm.allowed = false →
      ((escalationEvaluate hasManager llm tg).decidedBy ≠ .llm
        ∧ (hasManager = false →
            escalationEvaluate hasManager llm tg =
              ⟨false, "LLM uncertain and no Telegram available; denied by default", .timeout⟩
            ∧ containsSubstr "LLM uncertain and no Telegram available; denied by default"
                "no Telegram available" = true)
        ∧ (hasManager = true →
            escalationEvaluate hasManager llm tg =
              ⟨tg.approved, tg.reason,
                if containsSubstr tg.reason "timed out" then .timeout else .telegram⟩
            ∧ ((escalationEvaluate hasManager llm tg).decidedBy = .telegram ∨
               (escalationEvaluate hasManager llm tg).decidedBy = .timeout))))
    ∧ ((escalationEvaluate hasManager llm tg).decidedBy = .llm ↔
        (llm.confident = true ∧ llm.allowed = true))
    ∧ ((escalationEvaluate hasManager llm tg).decidedBy = .llm →
        (escalationEvaluate hasManager llm tg).allowed = true) := by
  obtain ⟨la, lc, lr⟩ := llm
  refine ⟨?_, ?_, ?_⟩
  · intro hc ha
    simp only [LlmEvalResult.confident] at hc
    simp only [LlmEvalResult.allowed] at ha
    subst hc
    subst ha
    refine ⟨?_, ?_, ?_⟩
    · cases hasManager
      · simp [escalationEvaluate]
      · by_cases hto : containsSubstr tg.reason "timed out" <;>
          simp [escalationEvaluate, hto]
    · intro hm
      subst hm
      exact ⟨by simp [escalationEvaluate], by decide⟩
    · intro hm
      subst hm
      refine ⟨by simp [escalationEvaluate], ?_⟩
      by_cases hto : containsSubstr tg.reason "timed out" <;>
        simp [escalationEvaluate, hto]
  · cases la <;> cases lc <;> cases hasManager <;>
      (by_cases hto : containsSubstr tg.reason "timed out" <;>
        simp [escalationEvaluate, hto])
  · cases la <;> cases lc <;> cases hasManager <;>
      (by_cases hto : containsSubstr tg.reason "timed out" <;>
        simp [escalationEvaluate, hto])

/-- Witness for C3: a confident deny with no coordinator configured is a
timeout-tagged default deny; with a coordinator and a timed-out
approval, the tag is `timeout`. -/
theorem claim_C3_witness :
    escalationEvaluate false ⟨false, true, "drops DB"⟩ ⟨false, "unused", none⟩ =
      ⟨false, "LLM uncertain and no Telegram available; denied by default", .timeout⟩ ∧
    (escalationEvaluate true ⟨false, true, "drops DB"⟩
      ⟨false, "Telegram approval timed out", none⟩).decidedBy = .timeout := by
  constructor
  · exact (((claim_C3 false ⟨false, true, "drops DB"⟩ ⟨false, "unused", none⟩).1
      rfl rfl).2.1 rfl).1
  · have h := (((claim_C3 true ⟨false, true, "drops DB"⟩
      ⟨false, "Telegram approval timed out", none⟩).1 rfl rfl).2.2 rfl).1
    rw [h]
    decide

/-- Claim C5: a Stop event with `stop_hook_active: true` returns `{}`
and makes no `summarizeTranscript` and no `requestStopDecision` call,
whatever the message, retry state and configuration. -/
theorem claim_C5 (cfg : StopConfig) (env : StopEnv) (retry : Option Nat)
    (input : StopInput) (h : input.stop_hook_active = true) :
    stopHandler cfg env retry input = (.empty, retry, noStopEffects) ∧
    (stopHandler cfg env retry input).2.2.summarizeCalled = false ∧
    (stopHandler cfg env retry input).2.2.requestStopCalled = false := by
  refine ⟨by simp [stopHandler, h], ?_, ?_⟩ <;> simp [stopHandler, h, noStopEffects]

/-- Witness for C5 at a configuration that would otherwise retry and
escalate. -/
theorem claim_C5_witness :
    stopHandler ⟨true, 2, true⟩ ⟨true, some "/t", true, ⟨true, "ok", some "pt"⟩⟩ (some 1)
      ⟨"s1", "/p", "/t", true, some "Error: failed"⟩ = (.empty, some 1, noStopEffects) :=
  (claim_C5 ⟨true, 2, true⟩ ⟨true, some "/t", true, ⟨true, "ok", some "pt"⟩⟩ (some 1)
    ⟨"s1", "/p", "/t", true, some "Error: failed"⟩ rfl).1

/-- Claim C9: after `registerFromTmux()` created a synthetic session for
a cwd, `ensureRegistered(realId, cwd)` merges it — the registry then has
exactly one entry for that cwd, keyed by `realId`, whose label,
startedAt and denialCount come from the synthetic entry, and no entry
with the synthetic id remains. -/
theorem claim_C9 (env : TrackerEnv) (s0 : Sessions) (pane : TmuxPane) (realId : String)
    (h0 : findByCwd s0 pane.paneCwd = none)
    (hsyn : assocGet? ("tmux_" ++ pane.paneId) s0 = none)
    (hreal : assocGet? realId (registerFromTmux env [pane] s0) = none) :
    ((ensureRegistered env realId pane.paneCwd (registerFromTmux env [pane] s0)).filter
        (fun p => p.2.cwd == pane.paneCwd) =
      [(realId, { syntheticInfo env pane with sessionId := realId })])
    ∧ assocGet? realId
        (ensureRegistered env realId pane.paneCwd (registerFromTmux env [pane] s0)) =
        some { syntheticInfo env pane with sessionId := realId }
    ∧ assocGet? ("tmux_" ++ pane.paneId)
        (ensureRegistered env realId pane.paneCwd (registerFromTmux env [pane] s0)) = none
    ∧ ({ syntheticInfo env pane with sessionId := realId }).label = pane.windowName
    ∧ ({ syntheticInfo env pane with sessionId := realId }).startedAt =
        (syntheticInfo env pane).startedAt
    ∧ ({ syntheticInfo env pane with sessionId := realId }).denialCount =
        (syntheticInfo env pane).denialCount := by
  have hs2 := ensureRegistered_merge env s0 pane realId h0 hsyn hreal
  have hs1 := registerFromTmux_single env s0 pane h0 hsyn
  obtain ⟨hrs0, hrs1⟩ := assocGet?_append_none _ _ _ (hs1 ▸ hreal)
  have hne : realId ≠ "tmux_" ++ pane.paneId := by
    rw [assocGet?_eq_none_iff] at hrs1
    have h := hrs1 ("tmux_" ++ pane.paneId, syntheticInfo env pane) (by simp)
    simp only [beq_eq_false_iff_ne] at h
    exact fun he => h he.symm
  refine ⟨?_, ?_, ?_, rfl, rfl, rfl⟩
  · rw [hs2, List.filter_append]
    have hnil : s0.filter (fun p => p.2.cwd == pane.paneCwd) = [] := by
      rw [List.filter_eq_nil_iff]
      intro p hp
      rw [(findByCwd_eq_none_iff _ _).mp h0 p hp]
      exact Bool.noConfusion
    rw [hnil]
    simp [syntheticInfo]
  · rw [hs2]
    unfold assocGet?
    rw [List.find?_append]
    have hnone : s0.find? (fun p => p.1 == realId) = none := by
      rw [List.find?_eq_none]
      simp only [Bool.not_eq_true]
      exact (assocGet?_eq_none_iff _ _).mp hrs0
    rw [hnone]
    simp
  · rw [hs2, assocGet?_eq_none_iff]
    intro p hp
    rcases List.mem_append.mp hp with h | h
    · exact (assocGet?_eq_none_iff _ _).mp hsyn p h
    · have hp1 : p.1 = realId := by
        simp at h
        rw [h]
      rw [hp1]
      exact beq_eq_false_iff_ne.mpr hne

/-- Witness for C9: a synthetic session discovered at `/proj` is merged
into the real session `sess_abc`. -/
theorem claim_C9_witness :
    (ensureRegistered ⟨fun _ => none, fun _ => none, "T0", 100⟩ "sess_abc" "/proj"
      (registerFromTmux ⟨fun _ => none, fun _ => none, "T0", 100⟩
        [⟨"%1", "/proj", "main:cube"⟩] [])).filter (fun p => p.2.cwd == "/proj") =
      [("sess_abc", ⟨"sess_abc", "/proj", "T0", .active, none, 100, 0, "main:cube", some "%1"⟩)]
    ∧ assocGet? "tmux_%1"
        (ensureRegistered ⟨fun _ => none, fun _ => none, "T0", 100⟩ "sess_abc" "/proj"
          (registerFromTmux ⟨fun _ => none, fun _ => none, "T0", 100⟩
            [⟨"%1", "/proj", "main:cube"⟩] [])) = none := by
  have h := claim_C9 ⟨fun _ => none, fun _ => none, "T0", 100⟩ []
    ⟨"%1", "/proj", "main:cube"⟩ "sess_abc" rfl rfl rfl
  exact ⟨h.1, h.2.2.1⟩

/-- Claim C8: for a single session, consecutive heuristic error blocks
are bounded by `maxRetries` — under the bound the handler blocks and
increments the counter; at the bound the counter is cleared and the
event falls through to transcript analysis and escalation rather than
another heuristic block. -/
theorem claim_C8 (cfg : StopConfig) (env : StopEnv) (input : StopInput)
    (h1 : input.stop_hook_active = false)
    (h2 : ((input.last_assistant_message.getD "") == "") = false)
    (h3 : looksLikeError (input.last_assistant_message.getD "") = true)
    (h4 : cfg.retryOnError = true) :
    (∀ c, c < cfg.maxRetries →
      stopHandler cfg env (some c) input =
        (.block heuristicBlockReason, some (c + 1), noStopEffects))
    ∧ (∀ c, cfg.maxRetries ≤ c →
      (stopHandler cfg env (some c) input).2.1 = none
      ∧ (stopHandler cfg env (some c) input).1 ≠ .block heuristicBlockReason
      ∧ (cfg.escalateToTelegram = true → env.hasApprovalManager = true →
          (stopHandler cfg env (some c) input).2.2.requestStopCalled = true))
    ∧ (∀ n c, (∀ r ∈ stopTrace cfg env input (some c) n, r = .block heuristicBlockReason) →
        n ≤ cfg.maxRetries - c)
    ∧ (∀ n, (∀ r ∈ stopTrace cfg env input none n, r = .block heuristicBlockReason) →
        n ≤ cfg.maxRetries) := by
  refine ⟨?_, ?_, stopTrace_bound cfg env input h1 h2 h3 h4, ?_⟩
  · intro c hc
    exact stopHandler_error_block cfg env input h1 h2 h3 h4 (some c) hc
  · intro c hc
    exact stopHandler_exhausted_parts cfg env input h1 h2 h3 h4 (some c)
      (by rw [Option.getD_some]; omega)
  · intro n hall
    cases n with
    | zero => exact Nat.zero_le _
    | succ n =>
      by_cases h0 : 0 < cfg.maxRetries
      · have hstep := stopHandler_error_block cfg env input h1 h2 h3 h4 none h0
        have htr : stopTrace cfg env input none (n + 1) =
            (.block heuristicBlockReason) :: stopTrace cfg env input (some 1) n := by
          show (stopHandler cfg env none input).1 ::
            stopTrace cfg env input (stopHandler cfg env none input).2.1 n = _
          rw [hstep]
          rfl
        rw [htr] at hall
        have hrest := stopTrace_bound cfg env input h1 h2 h3 h4 n 1
          (fun r hr => hall r (List.mem_cons_of_mem _ hr))
        omega
      · have hparts := stopHandler_exhausted_parts cfg env input h1 h2 h3 h4 none h0
        have hhead : (stopHandler cfg env none input).1 = .block heuristicBlockReason := by
          refine hall _ ?_
          show _ ∈ (stopHandler cfg env none input).1 ::
            stopTrace cfg env input (stopHandler cfg env none input).2.1 n
          exact List.mem_cons_self _ _
        exact absurd hhead hparts.2.1

/-- Witness for C8 with `maxRetries = 2`: the first two error stops
block and increment, the third clears the counter and escalates. -/
theorem claim_C8_witness :
    stopHandler ⟨true, 2, true⟩ ⟨true, none, true, ⟨false, "timed out", none⟩⟩ (some 0)
      ⟨"s1", "/p", "/t", false, some "Error: disk full"⟩ =
      (.block heuristicBlockReason, some 1, noStopEffects)
    ∧ (stopHandler ⟨true, 2, true⟩ ⟨true, none, true, ⟨false, "timed out", none⟩⟩ (some 2)
      ⟨"s1", "/p", "/t", false, some "Error: disk full"⟩).2.1 = none := by
  have h := claim_C8 ⟨true, 2, true⟩ ⟨true, none, true, ⟨false, "timed out", none⟩⟩
    ⟨"s1", "/p", "/t", false, some "Error: disk full"⟩ rfl (by decide) (by decide) rfl
  exact ⟨h.1 0 (by decide), (h.2.1 2 (by decide)).1⟩


/-- Claim C4: for a pending approval, at most one inbound event resolves
it, and when the timeout fires exactly one of button-approve,
button-deny, classified text reply and timeout has resolved it; every
resolution deletes both the pending entry and the message-context
entry, and a later button callback finds no pending entry and answers
"Request expired or already handled." without resolving anything. -/
theorem claim_C4 (st0 : AMState) (id : String) (evs : List AMEvent)
    (hpend : (assocGet? id st0.pending).isSome = true) :
    countRes id (runOutputs st0 evs) ≤ 1
    ∧ ((∃ r, AMEvent.timeoutFire id r ∈ evs) → countRes id (runOutputs st0 evs) = 1)
    ∧ (∀ (st : AMState) (e : AMEvent) (p : PendingApproval),
        assocGet? id st.pending = some p →
        0 < countResOne id (amStep st e).2 →
        (assocGet? id (amStep st e).1.pending = none ∧
          ∀ m, p.messageId = some m →
            assocGet? m (amStep st e).1.messageContext = none))
    ∧ (∀ st : AMState, assocGet? id st.pending = none →
        amStep st (.buttonApprove id) = (st, ⟨[], [expiredAnswer], []⟩) ∧
        amStep st (.buttonDeny id) = (st, ⟨[], [expiredAnswer], []⟩)) := by
  refine ⟨countRes_le_one id evs st0, fun h => countRes_timeout_one id evs st0 hpend h, ?_, ?_⟩
  · intro st e p hp hpos
    rcases amStep_cases st e id with ⟨h0, _⟩ | ⟨_, _, hclean⟩
    · rw [h0] at hpos
      exact absurd hpos (by simp)
    · rw [hclean]
      exact cleanup_deletes id st p hp
  · intro st h
    exact amStep_expired st id h

/-- Witness for C4: approve resolves the request once; the later timeout
and deny button are no-ops. -/
theorem claim_C4_witness :
    countRes "req_1" (runOutputs
      ⟨[("req_1", ⟨some 5, "Bash", 0⟩)], [(5, ⟨"req_1", "s1", none, "lab", false⟩)]⟩
      [.buttonApprove "req_1", .timeoutFire "req_1" "Telegram approval timed out",
       .buttonDeny "req_1"]) = 1 :=
  (claim_C4 _ "req_1" _ (by decide)).2.1 ⟨"Telegram approval timed out", by decide⟩

/-- Claim C7, evaluated at the failing input: a text reply to a
stop-decision message bypasses the classifier (a `deny` classification
is ignored) and resolves with `{approved: true, reason: "User replied to
agent question", policyText: <the text>}`; the stop pipeline then
returns `{decision: "block", reason: "The user answered your question:
<text>"}` — but, although the pane (`%5`) is known, the handler makes no
`sendKeys` call, contradicting the claim's (and the repository
documentation's) "also injected into the session's terminal pane". -/
theorem claim_C7 :
    amStep ⟨[("stop_1", ⟨some 100, "Stop", 0⟩)],
        [(100, ⟨"stop_1", "s1", some "%5", "main:cube", true⟩)]⟩
      (.textReply 100 "use pnpm" (some ⟨.deny, none, none⟩)) =
      (⟨[], []⟩,
        ⟨[("stop_1", ⟨true, "User replied to agent question", some "use pnpm"⟩)], [], []⟩)
    ∧ (stopHandler ⟨true, 2, true⟩
        ⟨true, some "/t", true, ⟨true, "User replied to agent question", some "use pnpm"⟩⟩
        none ⟨"s1", "/p", "/t", false, some "Should I use npm or pnpm?"⟩).1 =
      .block "The user answered your question: use pnpm"
    ∧ (amStep ⟨[("stop_1", ⟨some 100, "Stop", 0⟩)],
        [(100, ⟨"stop_1", "s1", some "%5", "main:cube", true⟩)]⟩
      (.textReply 100 "use pnpm" (some ⟨.deny, none, none⟩))).2.sendKeysCalls = [] :=
  ⟨by decide, by decide, by decide⟩

end ClaudeCube
